import Mathlib

/-!
Verification of the `tkinter-auto-clicker` repository against its
natural-language specification.

Part 1 embeds the coordinate arithmetic of `src/autoclicker/monitors.py`
and `src/autoclicker/click_engine.py` (pure functions over immutable
`MonitorInfo` records; Python `ValueError` is modelled as `Except.error`).

Part 2 models the review-aggregation pipeline that the specification
describes.  That pipeline's code is not present under `src/`, so each of
its definitions is modelled from the spec text, as flagged in the doc
comments.
-/

namespace AutoClicker

/-- `MonitorInfo` from `src/tkinter-autoclicker/models.py`: a frozen
dataclass, hence immutable; modelled as a plain structure. -/
structure MonitorInfo where
  id : String
  name : String
  x : Int
  y : Int
  width : Int
  height : Int
  is_primary : Bool
deriving DecidableEq, Repr

/-- `relative_to_absolute` from `src/autoclicker/monitors.py` lines 42-47.
Python raises `ValueError` when `rel_x` is outside `[0, width)` or `rel_y`
outside `[0, height)`; otherwise returns `(monitor.x + rel_x, monitor.y + rel_y)`.
`ValueError` is modelled as `Except.error` carrying the message text. -/
def relative_to_absolute (monitor : MonitorInfo) (rel_x rel_y : Int) :
    Except String (Int × Int) :=
  if 0 ≤ rel_x ∧ rel_x < monitor.width then
    if 0 ≤ rel_y ∧ rel_y < monitor.height then
      .ok (monitor.x + rel_x, monitor.y + rel_y)
    else
      .error ("Y coordinate must be between 0 and " ++ toString (monitor.height - 1) ++ ".")
  else
    .error ("X coordinate must be between 0 and " ++ toString (monitor.width - 1) ++ ".")

/-- The containment test used by `absolute_to_relative`
(`monitor.x <= abs_x < x_end and monitor.y <= abs_y < y_end`). -/
def containsPoint (m : MonitorInfo) (abs_x abs_y : Int) : Bool :=
  decide (m.x ≤ abs_x ∧ abs_x < m.x + m.width ∧ m.y ≤ abs_y ∧ abs_y < m.y + m.height)

/-- `absolute_to_relative` from `src/autoclicker/monitors.py` lines 50-58:
scan the monitor list in order, return the first monitor whose rectangle
contains the point together with the offsets, `None` when no monitor does. -/
def absolute_to_relative : List MonitorInfo → Int → Int → Option (MonitorInfo × Int × Int)
  | [], _, _ => none
  | monitor :: rest, abs_x, abs_y =>
    if containsPoint monitor abs_x abs_y then
      some (monitor, abs_x - monitor.x, abs_y - monitor.y)
    else
      absolute_to_relative rest abs_x abs_y

lemma absolute_to_relative_eq_none_iff (monitors : List MonitorInfo) (abs_x abs_y : Int) :
    absolute_to_relative monitors abs_x abs_y = none ↔
      ∀ n ∈ monitors, containsPoint n abs_x abs_y = false := by
  induction monitors with
  | nil => simp [absolute_to_relative]
  | cons m rest ih =>
    by_cases h : containsPoint m abs_x abs_y <;>
      simp [absolute_to_relative, h, ih]

lemma absolute_to_relative_eq_some (monitors : List MonitorInfo) (abs_x abs_y : Int)
    (n : MonitorInfo) (off_x off_y : Int)
    (h : absolute_to_relative monitors abs_x abs_y = some (n, off_x, off_y)) :
    containsPoint n abs_x abs_y = true ∧ off_x = abs_x - n.x ∧ off_y = abs_y - n.y ∧
      ∃ pre post, monitors = pre ++ n :: post ∧
        ∀ p ∈ pre, containsPoint p abs_x abs_y = false := by
  induction monitors with
  | nil => simp [absolute_to_relative] at h
  | cons m rest ih =>
    by_cases hm : containsPoint m abs_x abs_y
    · simp only [absolute_to_relative, hm, if_true, Option.some.injEq] at h
      obtain ⟨rfl, rfl, rfl⟩ := h
      exact ⟨hm, rfl, rfl, [], rest, rfl, by simp⟩
    · simp only [absolute_to_relative, hm, if_false, Bool.false_eq_true] at h
      obtain ⟨hc, hx, hy, pre, post, hsplit, hpre⟩ := ih h
      refine ⟨hc, hx, hy, m :: pre, post, by simp [hsplit], ?_⟩
      intro p hp
      rcases List.mem_cons.mp hp with rfl | hp
      · simpa using hm
      · exact hpre p hp

/-- C8: `relative_to_absolute` raises `ValueError` iff `rel_x` is outside
`[0, monitor.width)` or `rel_y` is outside `[0, monitor.height)`; for every
in-bounds pair it returns exactly `(monitor.x + rel_x, monitor.y + rel_y)`.
(The monitor record is a frozen dataclass and the embedding is pure, so the
monitor is unchanged by construction.) -/
theorem relative_to_absolute_spec (m : MonitorInfo) (rel_x rel_y : Int) :
    ((∃ msg, relative_to_absolute m rel_x rel_y = .error msg) ↔
      ¬ (0 ≤ rel_x ∧ rel_x < m.width ∧ 0 ≤ rel_y ∧ rel_y < m.height)) ∧
    (0 ≤ rel_x → rel_x < m.width → 0 ≤ rel_y → rel_y < m.height →
      relative_to_absolute m rel_x rel_y = .ok (m.x + rel_x, m.y + rel_y)) := by
  constructor
  · unfold relative_to_absolute
    by_cases hx : 0 ≤ rel_x ∧ rel_x < m.width <;>
      by_cases hy : 0 ≤ rel_y ∧ rel_y < m.height <;>
      simp [hx, hy]
  · intro hx0 hxw hy0 hyh
    unfold relative_to_absolute
    simp [hx0, hxw, hy0, hyh]

/-- The primary monitor used in the repository's own tests. -/
def primaryMonitor : MonitorInfo :=
  { id := "monitor-0", name := "Primary", x := 0, y := 0,
    width := 1920, height := 1080, is_primary := true }

/-- The secondary monitor used in the repository's own tests. -/
def secondaryMonitor : MonitorInfo :=
  { id := "monitor-1", name := "Secondary", x := -1920, y := 0,
    width := 1920, height := 1080, is_primary := false }

/-- Witness for C8 at the concrete monitor of `tests/test_coordinates.py`. -/
theorem relative_to_absolute_spec_witness :
    relative_to_absolute primaryMonitor 100 250 =
      .ok (primaryMonitor.x + 100, primaryMonitor.y + 250) :=
  (relative_to_absolute_spec primaryMonitor 100 250).2
    (by decide) (by decide) (by decide) (by decide)

/-- C9: coordinate round-trip.  For in-bounds relative coordinates,
`relative_to_absolute` succeeds, and `absolute_to_relative` over `[m]`
recovers `(m, rel_x, rel_y)`.  Over any monitor list,
`absolute_to_relative` returns the first monitor whose rectangle contains
the point, with offsets `(abs_x - x, abs_y - y)`, and `none` exactly when
no monitor contains the point. -/
theorem coordinate_round_trip (m : MonitorInfo) (rel_x rel_y : Int)
    (hx0 : 0 ≤ rel_x) (hxw : rel_x < m.width) (hy0 : 0 ≤ rel_y) (hyh : rel_y < m.height) :
    relative_to_absolute m rel_x rel_y = .ok (m.x + rel_x, m.y + rel_y) ∧
    absolute_to_relative [m] (m.x + rel_x) (m.y + rel_y) = some (m, rel_x, rel_y) ∧
    (∀ (monitors : List MonitorInfo) (abs_x abs_y : Int),
      (absolute_to_relative monitors abs_x abs_y = none ↔
        ∀ n ∈ monitors, containsPoint n abs_x abs_y = false) ∧
      (∀ n off_x off_y, absolute_to_relative monitors abs_x abs_y = some (n, off_x, off_y) →
        containsPoint n abs_x abs_y = true ∧ off_x = abs_x - n.x ∧ off_y = abs_y - n.y ∧
        ∃ pre post, monitors = pre ++ n :: post ∧
          ∀ p ∈ pre, containsPoint p abs_x abs_y = false)) := by
  refine ⟨(relative_to_absolute_spec m rel_x rel_y).2 hx0 hxw hy0 hyh, ?_, ?_⟩
  · have hc : containsPoint m (m.x + rel_x) (m.y + rel_y) = true := by
      simp only [containsPoint, decide_eq_true_eq]
      omega
    simp [absolute_to_relative, hc]
  · intro monitors abs_x abs_y
    exact ⟨absolute_to_relative_eq_none_iff monitors abs_x abs_y,
      fun n off_x off_y h => absolute_to_relative_eq_some monitors abs_x abs_y n off_x off_y h⟩

/-- Witness for C9 at the secondary monitor of `tests/test_coordinates.py`:
the point `(-50, 500)` maps back to relative `(1870, 500)`. -/
theorem coordinate_round_trip_witness :
    relative_to_absolute secondaryMonitor 1870 500 =
      .ok (secondaryMonitor.x + 1870, secondaryMonitor.y + 500) ∧
    absolute_to_relative [secondaryMonitor]
        (secondaryMonitor.x + 1870) (secondaryMonitor.y + 500) =
      some (secondaryMonitor, 1870, 500) :=
  ⟨(coordinate_round_trip secondaryMonitor 1870 500
      (by decide) (by decide) (by decide) (by decide)).1,
   (coordinate_round_trip secondaryMonitor 1870 500
      (by decide) (by decide) (by decide) (by decide)).2.1⟩

/-- Python's `round` (banker's rounding, round-half-to-even) on an exact
rational: below the midpoint round down, above it round up, and at the exact
midpoint pick the even neighbour. -/
def roundHalfToEven (q : ℚ) : ℤ :=
  if Int.fract q < 1 / 2 then ⌊q⌋
  else if 1 / 2 < Int.fract q then ⌊q⌋ + 1
  else if ⌊q⌋ % 2 = 0 then ⌊q⌋ else ⌊q⌋ + 1

lemma floor_le_roundHalfToEven (q : ℚ) : ⌊q⌋ ≤ roundHalfToEven q := by
  unfold roundHalfToEven
  split_ifs <;> omega

lemma roundHalfToEven_le_floor_add_one (q : ℚ) : roundHalfToEven q ≤ ⌊q⌋ + 1 := by
  unfold roundHalfToEven
  split_ifs <;> omega

lemma roundHalfToEven_intCast (n : ℤ) : roundHalfToEven (n : ℚ) = n := by
  unfold roundHalfToEven
  rw [Int.fract_intCast, Int.floor_intCast]
  norm_num

lemma le_roundHalfToEven {q : ℚ} {a : ℤ} (ha : (a : ℚ) ≤ q) : a ≤ roundHalfToEven q :=
  le_trans (Int.le_floor.mpr ha) (floor_le_roundHalfToEven q)

lemma roundHalfToEven_le {q : ℚ} {b : ℤ} (hb : q ≤ (b : ℚ)) : roundHalfToEven q ≤ b := by
  have hfl : ⌊q⌋ ≤ b := by
    have := Int.floor_le_floor hb
    rwa [Int.floor_intCast] at this
  by_cases heq : ⌊q⌋ = b
  · have hq : q = (b : ℚ) := le_antisymm hb (by rw [← heq]; exact Int.floor_le q)
    rw [hq, roundHalfToEven_intCast]
  · have hlt : ⌊q⌋ + 1 ≤ b := by omega
    exact le_trans (roundHalfToEven_le_floor_add_one q) hlt

/-- `_to_normalized_coordinate` from `src/autoclicker/click_engine.py`
lines 51-54: `0` when `size <= 1`, otherwise
`int(round((value - start) * 65535 / (size - 1)))`.  Python's float
arithmetic on these small integer ratios is modelled as exact rational
arithmetic, with `round` as round-half-to-even. -/
def _to_normalized_coordinate (value start size : Int) : Int :=
  if size ≤ 1 then 0
  else roundHalfToEven (((value : ℚ) - (start : ℚ)) * 65535 / ((size : ℚ) - 1))

/-- C10: `_to_normalized_coordinate value start size` returns `0` whenever
`size ≤ 1`; for `size ≥ 2` and `start ≤ value ≤ start + size - 1` the
result lies in `[0, 65535]`, with `value = start` mapping to `0` and
`value = start + size - 1` mapping to `65535`. -/
theorem to_normalized_coordinate_spec (value start size : Int) :
    (size ≤ 1 → _to_normalized_coordinate value start size = 0) ∧
    (2 ≤ size → start ≤ value → value ≤ start + size - 1 →
      (0 ≤ _to_normalized_coordinate value start size ∧
        _to_normalized_coordinate value start size ≤ 65535) ∧
      (value = start → _to_normalized_coordinate value start size = 0) ∧
      (value = start + size - 1 → _to_normalized_coordinate value start size = 65535)) := by
  constructor
  · intro h
    simp [_to_normalized_coordinate, h]
  · intro hsize hlo hhi
    have h1 : ¬ size ≤ 1 := by omega
    have hdef : _to_normalized_coordinate value start size =
        roundHalfToEven (((value : ℚ) - (start : ℚ)) * 65535 / ((size : ℚ) - 1)) := by
      simp [_to_normalized_coordinate, h1]
    have hden : (0 : ℚ) < (size : ℚ) - 1 := by
      have : (2 : ℚ) ≤ (size : ℚ) := by exact_mod_cast hsize
      linarith
    refine ⟨⟨?_, ?_⟩, ?_, ?_⟩
    · rw [hdef]
      refine le_roundHalfToEven ?_
      push_cast
      have hnum : (0 : ℚ) ≤ ((value : ℚ) - (start : ℚ)) * 65535 := by
        have : (start : ℚ) ≤ (value : ℚ) := by exact_mod_cast hlo
        nlinarith
      positivity
    · rw [hdef]
      refine roundHalfToEven_le ?_
      rw [div_le_iff₀ hden]
      have hv : (value : ℚ) - (start : ℚ) ≤ (size : ℚ) - 1 := by
        have : (value : ℚ) ≤ (start : ℚ) + (size : ℚ) - 1 := by exact_mod_cast hhi
        linarith
      push_cast
      nlinarith
    · intro hv
      subst hv
      rw [hdef]
      have : ((value : ℚ) - (value : ℚ)) * 65535 / ((size : ℚ) - 1) = ((0 : ℤ) : ℚ) := by
        simp
      rw [this, roundHalfToEven_intCast]
    · intro hv
      subst hv
      rw [hdef]
      have hnum : ((start + size - 1 : ℤ) : ℚ) - (start : ℚ) = (size : ℚ) - 1 := by
        push_cast
        ring
      rw [hnum, mul_comm, mul_div_assoc, div_self (ne_of_gt hden), mul_one]
      have h65535 : (65535 : ℚ) = ((65535 : ℤ) : ℚ) := by norm_num
      rw [h65535, roundHalfToEven_intCast]

/-- Witness for C10 at the virtual-desktop geometry of
`tests/test_click_engine.py` (`start = -1920`, `size = 3840`). -/
theorem to_normalized_coordinate_spec_witness :
    (0 ≤ _to_normalized_coordinate 100 (-1920) 3840 ∧
      _to_normalized_coordinate 100 (-1920) 3840 ≤ 65535) ∧
    _to_normalized_coordinate (-1920) (-1920) 3840 = 0 ∧
    _to_normalized_coordinate 1919 (-1920) 3840 = 65535 :=
  ⟨((to_normalized_coordinate_spec 100 (-1920) 3840).2
      (by decide) (by decide) (by decide)).1,
   ((to_normalized_coordinate_spec (-1920) (-1920) 3840).2
      (by decide) (by decide) (by decide)).2.1 rfl,
   ((to_normalized_coordinate_spec 1919 (-1920) 3840).2
      (by decide) (by decide) (by decide)).2.2 (by decide)⟩

end AutoClicker

namespace Review

/-- Modelled from the spec: the `Finding` record of the review pipeline
(§3), whose code is absent from `src/`.  Severity and category are carried
as raw strings so that the spec's coercions can be stated; `line` is the
1-based line number, `confidence` a rational in place of the float. -/
structure Finding where
  id : String
  title : String
  severity : String
  category : String
  language : String
  path : String
  line : Int
  confidence : ℚ
  source : String
  evidence : String
  recommendation : String
deriving DecidableEq, Repr

/-- Modelled from the spec: the closed severity enumeration
`low|medium|high|critical` (§3). -/
def severities : List String := ["low", "medium", "high", "critical"]

/-- Modelled from the spec: the closed category enumeration (§3). -/
def categories : List String :=
  ["correctness", "security", "maintainability", "performance", "style"]

/-- Modelled from the spec: "severity (`low|medium|high|critical`, unknown
inputs coerce to `low`)" (§3). -/
def coerceSeverity (s : String) : String :=
  if s ∈ severities then s else "low"

/-- Modelled from the spec: "category (..., unknown coerces to
`maintainability`)" (§3). -/
def coerceCategory (c : String) : String :=
  if c ∈ categories then c else "maintainability"

/-- Modelled from the spec: "1-based line number (non-positive coerces
to 1)" (§3). -/
def coerceLine (l : Int) : Int :=
  if l ≤ 0 then 1 else l

/-- Modelled from the spec: "confidence (float clamped to [0,1])" (§3). -/
def clampConfidence (c : ℚ) : ℚ :=
  min 1 (max 0 c)

/-- Modelled from the spec: normalization of one `Finding` — the field
coercions of §3, absent code under `src/`. -/
def normalizeFinding (f : Finding) : Finding :=
  { f with
    severity := coerceSeverity f.severity
    category := coerceCategory f.category
    line := coerceLine f.line
    confidence := clampConfidence f.confidence }

lemma coerceSeverity_idem (s : String) :
    coerceSeverity (coerceSeverity s) = coerceSeverity s := by
  unfold coerceSeverity
  split_ifs <;> simp_all

lemma coerceCategory_idem (c : String) :
    coerceCategory (coerceCategory c) = coerceCategory c := by
  unfold coerceCategory
  split_ifs <;> simp_all

lemma coerceLine_idem (l : Int) : coerceLine (coerceLine l) = coerceLine l := by
  unfold coerceLine
  split_ifs <;> omega

lemma clampConfidence_idem (c : ℚ) :
    clampConfidence (clampConfidence c) = clampConfidence c := by
  unfold clampConfidence
  have h1 : max 0 (min 1 (max 0 c)) = min 1 (max 0 c) :=
    max_eq_right (le_min (by norm_num) (le_max_left 0 c))
  rw [h1, ← min_assoc, min_self]

/-- C1: Finding normalization is idempotent — `normalize(normalize(f))`
equals `normalize(f)` for every Finding `f`, so normalizing an
already-normalized Finding yields an identical Finding. -/
theorem normalize_finding_idempotent (f : Finding) :
    normalizeFinding (normalizeFinding f) = normalizeFinding f := by
  simp [normalizeFinding, coerceSeverity_idem, coerceCategory_idem,
    coerceLine_idem, clampConfidence_idem]

/-- A sample finding (the spec's end-to-end scenario 1, §8). -/
def exampleFinding : Finding :=
  { id := "PY-SUBPROCESS-SHELL"
    title := "subprocess call with shell=True"
    severity := "high"
    category := "security"
    language := "python"
    path := "app.py"
    line := 10
    confidence := 9 / 10
    source := "builtin"
    evidence := "subprocess.run(cmd, shell=True)"
    recommendation := "Pass an argument list instead of shell=True" }

/-- Witness for C1 at a concrete finding. -/
theorem normalize_finding_idempotent_witness :
    normalizeFinding (normalizeFinding exampleFinding) = normalizeFinding exampleFinding :=
  normalize_finding_idempotent exampleFinding

/-- Modelled from the spec: the fixed severity rank order
`low<medium<high<critical`; unknown strings rank with `low`, matching the
coercion of §3. -/
def severityRank (s : String) : Nat :=
  if s = "critical" then 3
  else if s = "high" then 2
  else if s = "medium" then 1
  else 0

/-- Modelled from the spec: `severity_meets_threshold` (§8) — `none`
threshold (modelled as `Option.none`) is always false, otherwise compare
ranks in the fixed order. -/
def severity_meets_threshold (sev : String) (threshold : Option String) : Bool :=
  match threshold with
  | Option.none => false
  | some t => decide (severityRank t ≤ severityRank sev)

/-- Modelled from the spec: the derived `Summary` (§3) — per-severity
counts, threshold, failed flag, exit code. -/
structure Summary where
  critical : Nat
  high : Nat
  medium : Nat
  low : Nat
  threshold : Option String
  failed : Bool
  exit_code : Nat
deriving DecidableEq, Repr

/-- Modelled from the spec: Summary computation (§3): failed is true iff
at least one finding's severity meets the threshold, exit code is 1 if
failed else 0. -/
def computeSummary (findings : List Finding) (threshold : Option String) : Summary :=
  let failed := findings.any (fun f => severity_meets_threshold f.severity threshold)
  { critical := findings.countP (fun f => f.severity = "critical")
    high := findings.countP (fun f => f.severity = "high")
    medium := findings.countP (fun f => f.severity = "medium")
    low := findings.countP (fun f => f.severity = "low")
    threshold := threshold
    failed := failed
    exit_code := if failed then 1 else 0 }

/-- C2: the Summary's `failed` flag is true iff at least one finding's
severity rank is ≥ the threshold's rank in the fixed order
low<medium<high<critical; a `none` threshold never fails; the exit code is
1 if failed else 0. -/
theorem summary_threshold_spec (threshold : Option String) (findings : List Finding) :
    (severityRank "low" < severityRank "medium" ∧
      severityRank "medium" < severityRank "high" ∧
      severityRank "high" < severityRank "critical") ∧
    ((computeSummary findings threshold).failed = true ↔
      ∃ t, threshold = some t ∧
        ∃ f ∈ findings, severityRank t ≤ severityRank f.severity) ∧
    (computeSummary findings Option.none).failed = false ∧
    (computeSummary findings threshold).exit_code =
      (if (computeSummary findings threshold).failed then 1 else 0) := by
  refine ⟨by decide, ?_, ?_, rfl⟩
  · cases threshold with
    | none => simp [computeSummary, severity_meets_threshold]
    | some t => simp [computeSummary, severity_meets_threshold, List.any_eq_true]
  · simp [computeSummary, severity_meets_threshold]

/-- Witness for C2: a high finding trips a `high` threshold and never a
`none` threshold. -/
theorem summary_threshold_spec_witness :
    (computeSummary [exampleFinding] (some "high")).failed = true ∧
    (computeSummary [exampleFinding] Option.none).failed = false :=
  ⟨(summary_threshold_spec (some "high") [exampleFinding]).2.1.mpr
      ⟨"high", rfl, exampleFinding, by simp, by decide⟩,
   (summary_threshold_spec (some "high") [exampleFinding]).2.2.1⟩

/-- Modelled from the spec: `ReviewedFile` (§3) — relative path, language
tag, change kind. -/
structure ReviewedFile where
  path : String
  language : String
  change : String
deriving DecidableEq, Repr

/-- Modelled from the spec: `ToolRun` (§3) — tool name, status
(`ok|missing|error`), free-text notes. -/
structure ToolRun where
  tool : String
  status : String
  notes : String
deriving DecidableEq, Repr

/-- Modelled from the spec: `ReviewResult` (§3) — the root aggregate's
files, tooling, findings and derived Summary (metadata elided). -/
structure ReviewResult where
  files : List ReviewedFile
  tooling : List ToolRun
  findings : List Finding
  summary : Summary
deriving DecidableEq, Repr

/-- Modelled from the spec: "Dedup key = (id, path, line, source, title)"
(§3). -/
def dedupKey (f : Finding) : String × String × Int × String × String :=
  (f.id, f.path, f.line, f.source, f.title)

/-- First-occurrence deduplication worker over an accumulator of keys
already seen. -/
def dedupAux : List (String × String × Int × String × String) → List Finding → List Finding
  | _, [] => []
  | seen, f :: rest =>
    if dedupKey f ∈ seen then dedupAux seen rest
    else f :: dedupAux (dedupKey f :: seen) rest

/-- Modelled from the spec: "findings sharing a key collapse to one" (§3),
keeping the first occurrence. -/
def dedupFindings (findings : List Finding) : List Finding :=
  dedupAux [] findings

lemma severityRank_le_three (s : String) : severityRank s ≤ 3 := by
  unfold severityRank
  split_ifs <;> omega

/-- Sort key for files: (path, language, change), lexicographic (§3). -/
def fileKey (f : ReviewedFile) : Lex (String × Lex (String × String)) :=
  toLex (f.path, toLex (f.language, f.change))

/-- Sort key for findings: (descending severity rank, path, line, id,
title) (§3); descending rank is encoded as `3 - rank`. -/
def findingKey (f : Finding) : Lex (Nat × Lex (String × Lex (Int × Lex (String × String)))) :=
  toLex (3 - severityRank f.severity, toLex (f.path, toLex (f.line, toLex (f.id, f.title))))

def fileLE (a b : ReviewedFile) : Bool :=
  decide (fileKey a ≤ fileKey b)

def toolLE (a b : ToolRun) : Bool :=
  decide (a.tool ≤ b.tool)

def findingLE (a b : Finding) : Bool :=
  decide (findingKey a ≤ findingKey b)

/-- Modelled from the spec: `normalize(result, threshold)` (§4.5) — dedupe
findings by key, sort findings, files and tooling deterministically,
compute the Summary. -/
def normalize_result (r : ReviewResult) (threshold : Option String) : ReviewResult :=
  let findings := (dedupFindings r.findings).mergeSort findingLE
  { files := r.files.mergeSort fileLE
    tooling := r.tooling.mergeSort toolLE
    findings := findings
    summary := computeSummary findings threshold }

lemma dedupAux_countP_of_mem (l : List Finding)
    (seen : List (String × String × Int × String × String))
    (k : String × String × Int × String × String) (h : k ∈ seen) :
    (dedupAux seen l).countP (fun g => decide (dedupKey g = k)) = 0 := by
  induction l generalizing seen with
  | nil => simp [dedupAux]
  | cons f rest ih =>
    by_cases hf : dedupKey f ∈ seen
    · simpa [dedupAux, hf] using ih seen h
    · have hne : dedupKey f ≠ k := fun he => hf (he ▸ h)
      have hmem : k ∈ dedupKey f :: seen := List.mem_cons_of_mem _ h
      simp [dedupAux, hf, List.countP_cons, hne, ih (dedupKey f :: seen) hmem]

lemma dedupAux_countP (l : List Finding)
    (seen : List (String × String × Int × String × String))
    (k : String × String × Int × String × String) (h : k ∉ seen) :
    (dedupAux seen l).countP (fun g => decide (dedupKey g = k)) =
      if l.any (fun f => decide (dedupKey f = k)) then 1 else 0 := by
  induction l generalizing seen with
  | nil => simp [dedupAux]
  | cons f rest ih =>
    by_cases hf : dedupKey f ∈ seen
    · have hne : dedupKey f ≠ k := fun he => h (he ▸ hf)
      simp [dedupAux, hf, ih seen h, List.any_cons, hne]
    · by_cases hk : dedupKey f = k
      · have hmem : k ∈ dedupKey f :: seen := hk ▸ List.mem_cons_self _ _
        rw [dedupAux, if_neg hf, List.countP_cons,
          dedupAux_countP_of_mem rest (dedupKey f :: seen) k hmem]
        simp [List.any_cons, hk]
      · have hnot : k ∉ dedupKey f :: seen := by
          intro hc
          rcases List.mem_cons.mp hc with hc | hc
          · exact hk hc.symm
          · exact h hc
        simp [dedupAux, hf, List.countP_cons, hk, List.any_cons, ih _ hnot]

lemma dedupAux_key_not_mem_seen (l : List Finding)
    (seen : List (String × String × Int × String × String))
    (g : Finding) (hg : g ∈ dedupAux seen l) : dedupKey g ∉ seen := by
  induction l generalizing seen with
  | nil => simp [dedupAux] at hg
  | cons f rest ih =>
    by_cases hf : dedupKey f ∈ seen
    · rw [dedupAux, if_pos hf] at hg
      exact ih seen hg
    · rw [dedupAux, if_neg hf] at hg
      rcases List.mem_cons.mp hg with rfl | hg
      · exact hf
      · have := ih (dedupKey f :: seen) hg
        exact fun hc => this (List.mem_cons_of_mem _ hc)

lemma dedupAux_pairwise (l : List Finding)
    (seen : List (String × String × Int × String × String)) :
    (dedupAux seen l).Pairwise (fun a b => dedupKey a ≠ dedupKey b) := by
  induction l generalizing seen with
  | nil => simp [dedupAux]
  | cons f rest ih =>
    by_cases hf : dedupKey f ∈ seen
    · rw [dedupAux, if_pos hf]
      exact ih seen
    · rw [dedupAux, if_neg hf]
      refine List.Pairwise.cons ?_ (ih (dedupKey f :: seen))
      intro g hg
      have := dedupAux_key_not_mem_seen rest (dedupKey f :: seen) g hg
      exact fun he => this (he ▸ List.mem_cons_self _ _)

/-- C3: deduplication — for every finding of the input (in particular for
each member of a pair sharing (id, path, line, source, title) while
differing in evidence), the normalized result contains exactly one entry
with that dedup key, and all dedup keys in the result are pairwise
distinct. -/
theorem dedup_collapses_key (r : ReviewResult) (threshold : Option String)
    (f : Finding) (hf : f ∈ r.findings) :
    (normalize_result r threshold).findings.countP
        (fun g => decide (dedupKey g = dedupKey f)) = 1 ∧
    (normalize_result r threshold).findings.Pairwise
        (fun a b => dedupKey a ≠ dedupKey b) := by
  have hperm := List.mergeSort_perm (dedupFindings r.findings) findingLE
  constructor
  · show ((dedupFindings r.findings).mergeSort findingLE).countP _ = 1
    rw [hperm.countP_eq]
    rw [dedupFindings, dedupAux_countP r.findings [] (dedupKey f) (by simp)]
    rw [if_pos (List.any_eq_true.mpr ⟨f, hf, by simp⟩)]
  · show ((dedupFindings r.findings).mergeSort findingLE).Pairwise _
    exact (hperm.pairwise_iff (fun h he => h he.symm)).mpr
      (dedupAux_pairwise r.findings [])

/-- The same finding as `exampleFinding` with different evidence text:
identical dedup key, different record. -/
def exampleFindingOtherEvidence : Finding :=
  { exampleFinding with
    evidence := "subprocess.call(cmd, shell=True)"
    confidence := 1 / 2 }

/-- A review result holding a duplicated finding pair. -/
def exampleResult : ReviewResult :=
  { files := [{ path := "app.py", language := "python", change := "modified" }]
    tooling := [{ tool := "bandit", status := "ok", notes := "" }]
    findings := [exampleFinding, exampleFindingOtherEvidence]
    summary := computeSummary [] Option.none }

/-- Witness for C3 at the concrete duplicated pair. -/
theorem dedup_collapses_key_witness :
    (normalize_result exampleResult (some "high")).findings.countP
        (fun g => decide (dedupKey g = dedupKey exampleFinding)) = 1 :=
  (dedup_collapses_key exampleResult (some "high") exampleFinding (by simp [exampleResult])).1

lemma findingLE_trans (a b c : Finding) (hab : findingLE a b = true)
    (hbc : findingLE b c = true) : findingLE a c = true := by
  simp only [findingLE, decide_eq_true_eq] at *
  exact le_trans hab hbc

lemma findingLE_total (a b : Finding) : (findingLE a b || findingLE b a) = true := by
  simp only [findingLE, Bool.or_eq_true, decide_eq_true_eq]
  exact le_total _ _

lemma fileLE_trans (a b c : ReviewedFile) (hab : fileLE a b = true)
    (hbc : fileLE b c = true) : fileLE a c = true := by
  simp only [fileLE, decide_eq_true_eq] at *
  exact le_trans hab hbc

lemma fileLE_total (a b : ReviewedFile) : (fileLE a b || fileLE b a) = true := by
  simp only [fileLE, Bool.or_eq_true, decide_eq_true_eq]
  exact le_total _ _

lemma toolLE_trans (a b c : ToolRun) (hab : toolLE a b = true)
    (hbc : toolLE b c = true) : toolLE a c = true := by
  simp only [toolLE, decide_eq_true_eq] at *
  exact le_trans hab hbc

lemma toolLE_total (a b : ToolRun) : (toolLE a b || toolLE b a) = true := by
  simp only [toolLE, Bool.or_eq_true, decide_eq_true_eq]
  exact le_total _ _

lemma findingKey_le_rank {a b : Finding} (h : findingKey a ≤ findingKey b) :
    severityRank b.severity ≤ severityRank a.severity := by
  have ha := severityRank_le_three a.severity
  have hb := severityRank_le_three b.severity
  unfold findingKey at h
  rw [Prod.Lex.le_iff] at h
  rcases h with h | ⟨heq, -⟩
  · simp only at h
    omega
  · simp only at heq
    omega

/-- C4: after `normalize(threshold)`, files are sorted by (path, language,
change), tooling by tool name, findings by (descending severity rank,
path, line, id, title) with deduplicated keys; consequently whenever one
finding precedes another in the serialized order its severity rank is ≥
the other's, so critical findings precede high, high precede medium,
medium precede low. -/
theorem normalize_sort_invariant (r : ReviewResult) (threshold : Option String) :
    (normalize_result r threshold).files.Pairwise (fun a b => fileKey a ≤ fileKey b) ∧
    (normalize_result r threshold).tooling.Pairwise (fun a b => a.tool ≤ b.tool) ∧
    (normalize_result r threshold).findings.Pairwise
      (fun a b => findingKey a ≤ findingKey b) ∧
    (normalize_result r threshold).findings.Pairwise
      (fun a b => dedupKey a ≠ dedupKey b) ∧
    (∀ i j : Fin (normalize_result r threshold).findings.length, i < j →
      severityRank (((normalize_result r threshold).findings.get j).severity) ≤
        severityRank (((normalize_result r threshold).findings.get i).severity)) := by
  have hfiles := List.sorted_mergeSort fileLE_trans fileLE_total r.files
  have htool := List.sorted_mergeSort toolLE_trans toolLE_total r.tooling
  have hfind := List.sorted_mergeSort findingLE_trans findingLE_total
    (dedupFindings r.findings)
  have hfind' : (normalize_result r threshold).findings.Pairwise
      (fun a b => findingKey a ≤ findingKey b) := by
    refine List.Pairwise.imp ?_ hfind
    intro a b hab
    exact of_decide_eq_true hab
  refine ⟨?_, ?_, hfind', ?_, ?_⟩
  · refine List.Pairwise.imp ?_ hfiles
    intro a b hab
    exact of_decide_eq_true hab
  · refine List.Pairwise.imp ?_ htool
    intro a b hab
    exact of_decide_eq_true hab
  · have hperm := List.mergeSort_perm (dedupFindings r.findings) findingLE
    exact (hperm.pairwise_iff (fun h he => h he.symm)).mpr
      (dedupAux_pairwise r.findings [])
  · intro i j hij
    exact findingKey_le_rank (List.pairwise_iff_get.mp hfind' i j hij)

/-- Witness for C4: the normalized example result is sorted and
deduplicated. -/
theorem normalize_sort_invariant_witness :
    (normalize_result exampleResult (some "high")).findings.Pairwise
      (fun a b => findingKey a ≤ findingKey b) ∧
    (normalize_result exampleResult (some "high")).findings.Pairwise
      (fun a b => dedupKey a ≠ dedupKey b) :=
  ⟨(normalize_sort_invariant exampleResult (some "high")).2.2.1,
   (normalize_sort_invariant exampleResult (some "high")).2.2.2.1⟩

/-- ASCII lower-casing of one character. -/
def charToLower (c : Char) : Char :=
  if 'A' ≤ c ∧ c ≤ 'Z' then Char.ofNat (c.toNat + 32) else c

/-- ASCII lower-casing of a string (used for the case-insensitive
extension lookup). -/
def lowerString (s : String) : String :=
  String.mk (s.data.map charToLower)

/-- Characters after the last `.` of the list, `none` when there is no
dot. -/
def extAux : List Char → Option (List Char)
  | [] => Option.none
  | c :: cs =>
    match extAux cs with
    | some e => some e
    | Option.none => if c = '.' then some cs else Option.none

/-- Modelled from the spec: the file extension of a path — the suffix
from the last dot, empty when the path has none (§4.1; the classifier's
code is absent from `src/`). -/
def fileExtension (path : String) : String :=
  match extAux path.data with
  | some e => String.mk ('.' :: e)
  | Option.none => ""

/-- Modelled from the spec: the fixed extension table of §4.1. -/
def extensionTable : List (String × String) :=
  [(".ts", "typescript"), (".tsx", "typescript"), (".mts", "typescript"),
   (".cts", "typescript"),
   (".js", "javascript"), (".jsx", "javascript"), (".mjs", "javascript"),
   (".cjs", "javascript"),
   (".py", "python"), (".pyi", "python"),
   (".go", "go"), (".swift", "swift"),
   (".kt", "kotlin"), (".kts", "kotlin")]

/-- Modelled from the spec: `detect_language` (§4.1) — a pure lookup of
the lower-cased file extension in the fixed table; unmapped extensions
yield "unsupported", never an error. -/
def detect_language (path : String) : String :=
  match extensionTable.lookup (lowerString (fileExtension path)) with
  | some lang => lang
  | Option.none => "unsupported"

lemma lookup_eq_none_of_not_mem {β : Type} (l : List (String × β)) (a : String)
    (h : a ∉ l.map Prod.fst) : l.lookup a = Option.none := by
  induction l with
  | nil => rfl
  | cons p rest ih =>
    rcases p with ⟨k, v⟩
    simp only [List.map_cons, List.mem_cons, not_or] at h
    obtain ⟨h1, h2⟩ := h
    have hbeq : (a == k) = false := beq_eq_false_iff_ne.mpr h1
    simp [List.lookup, hbeq, ih h2]

/-- C5: `detect_language` is a pure function of the path's lower-cased
extension, agrees with the fixed table on every mapped extension, and
returns "unsupported" (not an error) on every unmapped extension. -/
theorem detect_language_spec :
    (∀ p q : String, lowerString (fileExtension p) = lowerString (fileExtension q) →
      detect_language p = detect_language q) ∧
    (∀ ext lang, (ext, lang) ∈ extensionTable →
      ∀ p : String, lowerString (fileExtension p) = ext → detect_language p = lang) ∧
    (∀ p : String, lowerString (fileExtension p) ∉ extensionTable.map Prod.fst →
      detect_language p = "unsupported") := by
  refine ⟨?_, ?_, ?_⟩
  · intro p q h
    unfold detect_language
    rw [h]
  · intro ext lang hmem p hp
    unfold detect_language
    rw [hp]
    fin_cases hmem <;> rfl
  · intro p hp
    unfold detect_language
    rw [lookup_eq_none_of_not_mem _ _ hp]

/-- Witness for C5: a mixed-case TypeScript path classifies as
typescript and a Markdown path is unsupported. -/
theorem detect_language_spec_witness :
    detect_language "src/App.TSX" = "typescript" ∧
    detect_language "README.md" = "unsupported" :=
  ⟨detect_language_spec.2.1 ".tsx" "typescript" (by decide) "src/App.TSX" (by decide),
   detect_language_spec.2.2 "README.md" (by decide)⟩

/-- Modelled from the spec: one external tool invocation spec (§4.3) —
tool name and the command to look up on the execution path. -/
structure ToolSpec where
  name : String
  command : String
deriving DecidableEq, Repr

/-- Modelled from the spec: the possible outcomes of executing a present
external binary (§4.3): completion with an exit code and raw output, a
timeout, or an execution exception. -/
inductive ExecOutcome where
  | completed (exitCode : Nat) (output : String)
  | timedOut
  | failed (message : String)
deriving DecidableEq, Repr

/-- Modelled from the spec: execution of one external tool (§4.3).  A
missing command records a `missing` ToolRun and skips; a timeout or
exception records `error`; exit code 0 or 1 counts as a successful run
whose parsed findings are tagged `external:<tool>`; any other exit code
records `error`.  No branch aborts. -/
def runOne (onPath : String → Bool) (exec : ToolSpec → ExecOutcome)
    (parse : ToolSpec → String → List Finding) (s : ToolSpec) :
    ToolRun × List Finding :=
  if onPath s.command = false then
    ({ tool := s.name, status := "missing",
       notes := "command not found on the execution path" }, [])
  else
    match exec s with
    | .timedOut => ({ tool := s.name, status := "error", notes := "timed out" }, [])
    | .failed msg => ({ tool := s.name, status := "error", notes := msg }, [])
    | .completed code out =>
      if code = 0 ∨ code = 1 then
        ({ tool := s.name, status := "ok", notes := "" },
          (parse s out).map fun f => { f with source := "external:" ++ s.name })
      else
        ({ tool := s.name, status := "error", notes := "unexpected exit code" }, [])

/-- Modelled from the spec: run every configured tool spec in order
(§4.3, never fatal), collecting one ToolRun per spec and all findings. -/
def run_external_tools (onPath : String → Bool) (exec : ToolSpec → ExecOutcome)
    (parse : ToolSpec → String → List Finding) (specs : List ToolSpec) :
    List ToolRun × List Finding :=
  ((specs.map (runOne onPath exec parse)).map Prod.fst,
   ((specs.map (runOne onPath exec parse)).map Prod.snd).flatten)

/-- C6: when a configured tool's binary is not on the execution path, its
invocation yields a `missing` ToolRun and zero findings, that ToolRun is
recorded in the run's tooling list, the run still completes with one
ToolRun per configured spec, and every finding of the run comes from a
tool whose binary was present. -/
theorem missing_tool_degradation (onPath : String → Bool)
    (exec : ToolSpec → ExecOutcome) (parse : ToolSpec → String → List Finding)
    (specs : List ToolSpec) (s : ToolSpec)
    (hmem : s ∈ specs) (hmiss : onPath s.command = false) :
    runOne onPath exec parse s =
      ({ tool := s.name, status := "missing",
         notes := "command not found on the execution path" }, []) ∧
    ({ tool := s.name, status := "missing",
       notes := "command not found on the execution path" } : ToolRun) ∈
      (run_external_tools onPath exec parse specs).1 ∧
    (run_external_tools onPath exec parse specs).1.length = specs.length ∧
    (∀ f ∈ (run_external_tools onPath exec parse specs).2,
      ∃ t ∈ specs, onPath t.command = true ∧ f ∈ (runOne onPath exec parse t).2) := by
  have hone : runOne onPath exec parse s =
      ({ tool := s.name, status := "missing",
         notes := "command not found on the execution path" }, []) := by
    simp [runOne, hmiss]
  refine ⟨hone, ?_, ?_, ?_⟩
  · have h1 : runOne onPath exec parse s ∈ specs.map (runOne onPath exec parse) :=
      List.mem_map_of_mem _ hmem
    have h2 := List.mem_map_of_mem Prod.fst h1
    rw [hone] at h2
    exact h2
  · simp [run_external_tools]
  · intro f hf
    simp only [run_external_tools, List.mem_flatten, List.mem_map] at hf
    obtain ⟨l, ⟨pair, ⟨t, htmem, htpair⟩, hl⟩, hfl⟩ := hf
    refine ⟨t, htmem, ?_, ?_⟩
    · by_contra hfalse
      have hm : onPath t.command = false := by
        cases h : onPath t.command
        · rfl
        · exact absurd h hfalse
      have hnil : (runOne onPath exec parse t).2 = [] := by
        simp [runOne, hm]
      rw [← hl, ← htpair, hnil] at hfl
      exact absurd hfl (List.not_mem_nil f)
    · rw [htpair, hl]
      exact hfl

/-- The catch-all static-analysis tool of §4.3. -/
def semgrepSpec : ToolSpec :=
  { name := "semgrep", command := "semgrep" }

/-- Witness for C6: on a path with no binaries, the catch-all tool is
recorded missing, contributes no findings, and the run completes. -/
theorem missing_tool_degradation_witness :
    runOne (fun _ => false) (fun _ => ExecOutcome.timedOut) (fun _ _ => []) semgrepSpec =
      ({ tool := semgrepSpec.name, status := "missing",
         notes := "command not found on the execution path" }, []) ∧
    (run_external_tools (fun _ => false) (fun _ => ExecOutcome.timedOut)
        (fun _ _ => []) [semgrepSpec]).1.length = 1 :=
  ⟨(missing_tool_degradation (fun _ => false) (fun _ => ExecOutcome.timedOut)
      (fun _ _ => []) [semgrepSpec] semgrepSpec (by simp) rfl).1,
   (missing_tool_degradation (fun _ => false) (fun _ => ExecOutcome.timedOut)
      (fun _ _ => []) [semgrepSpec] semgrepSpec (by simp) rfl).2.2.1⟩

/-- Split a character list on commas (the groups between commas, in
order). -/
def splitOnComma : List Char → List (List Char)
  | [] => [[]]
  | c :: cs =>
    if c = ',' then [] :: splitOnComma cs
    else
      match splitOnComma cs with
      | [] => [[c]]
      | g :: gs => (c :: g) :: gs

/-- The comma-separated tokens of a raw filter string, empty tokens
dropped. -/
def tokensOf (s : String) : List String :=
  ((splitOnComma s.data).map (fun cs => String.mk cs)).filter (fun t => t ≠ "")

/-- Modelled from the spec: the language alias table (§4.1) — the
canonical names mapping to themselves plus the short aliases. -/
def languageAliases : List (String × String) :=
  [("typescript", "typescript"), ("javascript", "javascript"),
   ("python", "python"), ("go", "go"), ("swift", "swift"), ("kotlin", "kotlin"),
   ("ts", "typescript"), ("js", "javascript"), ("py", "python"), ("kt", "kotlin")]

/-- Modelled from the spec: `parse_language_filter` (§4.1) — split the
comma-separated alias string, map each token through the alias table;
empty or absent input means "no filter"; if any token is unrecognized,
report an invalid-argument failure naming all unrecognized tokens in one
message (the `Except.error` payload), never a silent drop. -/
def parse_language_filter (raw : Option String) :
    Except (List String) (Option (List String)) :=
  match raw with
  | Option.none => .ok Option.none
  | some s =>
    if tokensOf s = [] then .ok Option.none
    else
      if (tokensOf s).filter (fun t => (languageAliases.lookup t).isNone) = [] then
        .ok (some ((tokensOf s).filterMap (fun t => languageAliases.lookup t)))
      else
        .error ((tokensOf s).filter (fun t => (languageAliases.lookup t).isNone))

/-- C7: `parse_language_filter` returns "no filter" on absent or empty
input, fails iff at least one comma-separated token is unrecognized by
the alias table, and the failure names exactly the unrecognized tokens in
one message. -/
theorem parse_language_filter_spec :
    parse_language_filter Option.none = .ok Option.none ∧
    parse_language_filter (some "") = .ok Option.none ∧
    (∀ s : String,
      ((∃ errs, parse_language_filter (some s) = .error errs) ↔
        ∃ t ∈ tokensOf s, (languageAliases.lookup t).isNone = true) ∧
      (∀ errs, parse_language_filter (some s) = .error errs →
        errs = (tokensOf s).filter (fun t => (languageAliases.lookup t).isNone))) := by
  refine ⟨rfl, rfl, ?_⟩
  intro s
  constructor
  · constructor
    · rintro ⟨errs, herr⟩
      unfold parse_language_filter at herr
      by_cases h0 : tokensOf s = []
      · simp [h0] at herr
      · by_cases h1 : (tokensOf s).filter (fun t => (languageAliases.lookup t).isNone) = []
        · simp [h0, h1] at herr
        · obtain ⟨t, ht⟩ := List.exists_mem_of_ne_nil _ h1
          have hmem := List.mem_filter.mp ht
          exact ⟨t, hmem.1, hmem.2⟩
    · rintro ⟨t, htmem, htnone⟩
      have h1 : (tokensOf s).filter (fun t => (languageAliases.lookup t).isNone) ≠ [] := by
        intro hc
        have hin : t ∈ (tokensOf s).filter (fun t => (languageAliases.lookup t).isNone) :=
          List.mem_filter.mpr ⟨htmem, htnone⟩
        rw [hc] at hin
        exact absurd hin (List.not_mem_nil t)
      have h0 : tokensOf s ≠ [] := by
        intro hc
        apply h1
        rw [hc]
        rfl
      refine ⟨(tokensOf s).filter (fun t => (languageAliases.lookup t).isNone), ?_⟩
      simp only [parse_language_filter]
      rw [if_neg h0, if_neg h1]
  · intro errs herr
    unfold parse_language_filter at herr
    by_cases h0 : tokensOf s = []
    · simp [h0] at herr
    · by_cases h1 : (tokensOf s).filter (fun t => (languageAliases.lookup t).isNone) = []
      · simp [h0, h1] at herr
      · simp only [parse_language_filter] at herr
        rw [if_neg h0, if_neg h1] at herr
        exact (Except.error.inj herr).symm

/-- Witness for C7: `ts,bogus` fails (the unknown token is named) while
absent input yields "no filter". -/
theorem parse_language_filter_spec_witness :
    (∃ errs, parse_language_filter (some "ts,bogus") = Except.error errs) ∧
    parse_language_filter Option.none = Except.ok Option.none :=
  ⟨(parse_language_filter_spec.2.2 "ts,bogus").1.mpr ⟨"bogus", by decide, by decide⟩,
   parse_language_filter_spec.1⟩

end Review
